import Mathlib

/-!
Verification of `sequence_alignment.py` (sequence alignment by dynamic
programming, with backtracking reconstruction).

The Python module exposes `sequence_alignment(x, y, gap_pen, pen_map)`,
which validates its inputs, fills an `(m+1) × (n+1)` table of subproblem
values bottom-up, and reconstructs one optimal alignment by backtracking
through the completed table (`_reconstruct_optimal_alignment`).

Embedding conventions:
- Python strings become `List Char`; prepending a character to a string
  (`c + s`) becomes `c :: s`.
- Python `int` becomes `Int`.
- The nested penalty dict `pen_map : dict{str: dict{str: int}}` becomes an
  association list of association lists; a two-stage lookup may fail, which
  models the `KeyError` of Python.
- Runtime exceptions (`KeyError` from a missing penalty entry, `TypeError`
  from the statement `y -= 1` that subtracts an int from a string) are
  modelled with `Except PyErr`.
- The DP array `subproblems[i][j]` is embedded as a function of `(i, j)`
  whose defining equation at each index is exactly the assignment the
  row-major loop performs at that cell.
-/

namespace SeqAlign

/-- Runtime errors the Python code can raise. -/
inductive PyErr where
  | typeError
  | keyError
deriving DecidableEq

/-- Two-stage lookup `pen_map[a][b]` in the nested penalty dict,
    modelled on association lists; `none` models a `KeyError`. -/
def lookup2 (pen_map : List (Char × List (Char × Int))) (a b : Char) : Option Int :=
  match pen_map.lookup a with
  | none => none
  | some inner => inner.lookup b

/-- The bottom-up loop of `sequence_alignment` looks `pen_map[x[i-1]][y[j-1]]`
    up for every `1 ≤ i ≤ m`, `1 ≤ j ≤ n`, so the call raises `KeyError`
    exactly when some pair of `X × Y` is missing from the map.  This predicate
    is that totality check. -/
def penTotal (x y : List Char) (pen_map : List (Char × List (Char × Int))) : Bool :=
  x.all fun a => y.all fun b => (lookup2 pen_map a b).isSome

/-- The penalty value `pen_map[a][b]`, as a total function; only used after
    `penTotal` has guaranteed the lookup succeeds, so the default is never
    produced by `sequence_alignment`. -/
def penOf (pen_map : List (Char × List (Char × Int))) (a b : Char) : Int :=
  (lookup2 pen_map a b).getD 0

/-- Row `i ≥ 1` of the DP table, given row `i-1` (`prevRow`), the character
    `x_curr = x[i-1]`, and the seeded boundary value `base = i * gap_pen` of
    column 0.  Cell `j+1` is
    `min(result1, result2, result3)` with
    `result1 = prevRow[j] + pen_map[x_curr][y[j]]`,
    `result2 = prevRow[j+1] + gap_pen`,
    `result3 = (this row)[j] + gap_pen`,
    exactly as the inner loop of `sequence_alignment` computes it. -/
def subproblemsRow (y : List Char) (gap_pen : Int) (pen : Char → Char → Int)
    (x_curr : Char) (prevRow : Nat → Int) (base : Int) : Nat → Int
  | 0 => base
  | j + 1 =>
    min (prevRow j + pen x_curr (y.getD j ' '))
      (min (prevRow (j + 1) + gap_pen)
        (subproblemsRow y gap_pen pen x_curr prevRow base j + gap_pen))

/-- The DP table `subproblems` of `sequence_alignment`:
    `subproblems[i][0] = i * gap_pen`, `subproblems[0][j] = j * gap_pen`,
    and each interior cell is the three-way `min` of the bottom-up loop. -/
def subproblems (x y : List Char) (gap_pen : Int) (pen : Char → Char → Int) :
    Nat → Nat → Int
  | 0 => fun j => (j : Int) * gap_pen
  | i + 1 =>
    subproblemsRow y gap_pen pen (x.getD i ' ')
      (subproblems x y gap_pen pen i) (((i : Int) + 1) * gap_pen)

/-- Which branch of the backtracking `if result == result1 / elif result ==
    result2 / else` dispatch is taken. -/
inductive BtCase where
  | case1
  | case2
  | case3
deriving DecidableEq

/-- The branch dispatch of the backtracking loop body, verbatim from the
    `if`/`elif`/`else` of `_reconstruct_optimal_alignment`. -/
def btChoice (result result1 result2 : Int) : BtCase :=
  if result = result1 then BtCase.case1
  else if result = result2 then BtCase.case2
  else BtCase.case3

/-- The `while i >= 1 and j >= 1` backtracking loop of
    `_reconstruct_optimal_alignment`.  State is `(i, j, sx, sy)`; the result
    carries the final `(sx, sy, i, j)`.  The `fuel` argument only bounds the
    iteration count for structural recursion; every step decreases `i + j` by
    one, so with initial fuel `i + j` the fuel never runs out before the loop
    condition fails.

    Branches of the loop body:
    - `case1` (`result == result1`): the Python body executes `y -= 1`,
      subtracting an int from the string `y` (instead of decrementing the
      index `j`), which raises `TypeError`; the raise discards the local
      updates, so the whole call errors.
    - `case2` (`result == result2`): `sx = x_curr + sx; sy = ' ' + sy; i -= 1`.
    - `case3` (else): `sx = ' ' + sx; sy = y_curr + sy; j -= 1`. -/
def reconGo (x y : List Char) (gap_pen : Int) (pen : Char → Char → Int)
    (dp : Nat → Nat → Int) :
    Nat → Nat → Nat → List Char → List Char →
      Except PyErr (List Char × List Char × Nat × Nat)
  | 0, i, j, sx, sy => Except.ok (sx, sy, i, j)
  | fuel + 1, i, j, sx, sy =>
    match i, j with
    | i' + 1, j' + 1 =>
      let x_curr := x.getD i' ' '
      let y_curr := y.getD j' ' '
      let result1 := dp i' j' + pen x_curr y_curr
      let result2 := dp i' (j' + 1) + gap_pen
      let result := dp (i' + 1) (j' + 1)
      match btChoice result result1 result2 with
      | BtCase.case1 => Except.error PyErr.typeError
      | BtCase.case2 =>
        reconGo x y gap_pen pen dp fuel i' (j' + 1) (x_curr :: sx) (' ' :: sy)
      | BtCase.case3 =>
        reconGo x y gap_pen pen dp fuel (i' + 1) j' (' ' :: sx) (y_curr :: sy)
    | i, j => Except.ok (sx, sy, i, j)

/-- `_reconstruct_optimal_alignment(x, y, gap_pen, pen_map, dp)`: run the
    backtracking loop from `(i, j) = (len(x), len(y))` with empty `sx, sy`,
    then apply the trailing padding
    `if i: sy = ' ' * i + sy` / `elif j: sx = ' ' * j + sx`
    and return `[sx, sy]`. -/
def reconstruct_optimal_alignment (x y : List Char) (gap_pen : Int)
    (pen : Char → Char → Int) (dp : Nat → Nat → Int) :
    Except PyErr (List (List Char)) :=
  match reconGo x y gap_pen pen dp (x.length + y.length) x.length y.length [] [] with
  | Except.error e => Except.error e
  | Except.ok (sx, sy, i, j) =>
    if i ≠ 0 then Except.ok [sx, List.replicate i ' ' ++ sy]
    else if j ≠ 0 then Except.ok [List.replicate j ' ' ++ sx, sy]
    else Except.ok [sx, sy]

/-- `sequence_alignment(x, y, gap_pen, pen_map)`:
    the three validation checks return the empty list `[]`, exactly as the
    Python `return []` statements do; then the table is filled and the
    alignment reconstructed.  A missing penalty entry for a pair of
    `X × Y` raises `KeyError` inside the bottom-up loop (the loop visits
    every such pair), modelled by the `penTotal` test. -/
def sequence_alignment (x y : List Char) (gap_pen : Int)
    (pen_map : List (Char × List (Char × Int))) : Except PyErr (List (List Char)) :=
  if x = [] ∨ y = [] then Except.ok []
  else if gap_pen < 0 then Except.ok []
  else if pen_map = [] then Except.ok []
  else if penTotal x y pen_map then
    reconstruct_optimal_alignment x y gap_pen (penOf pen_map)
      (subproblems x y gap_pen (penOf pen_map))
  else Except.error PyErr.keyError

/-! ## Specification-side notions: alignments and their cost

An alignment of `X` and `Y` is a list of columns; each column pairs an
optional symbol of `X` with an optional symbol of `Y` (`none` is a gap), a
column may not consist of two gaps, and reading off the non-gap symbols of
each side reproduces `X` resp. `Y` in order.  The per-position penalty is
the substitution penalty when both positions are non-gap and the gap
penalty when either is a gap. -/

/-- Per-position penalty of one alignment column. -/
def colCost (gap_pen : Int) (pen : Char → Char → Int) :
    Option Char × Option Char → Int
  | (some a, some b) => pen a b
  | _ => gap_pen

/-- Total penalty of an alignment, the sum of its per-position penalties. -/
def alignCost (gap_pen : Int) (pen : Char → Char → Int)
    (cols : List (Option Char × Option Char)) : Int :=
  (cols.map (colCost gap_pen pen)).sum

/-- `cols` is a valid alignment of `xs` and `ys`: the non-gap entries of the
    first components spell `xs`, those of the second components spell `ys`,
    and no column is a double gap. -/
def IsAlignment (xs ys : List Char) (cols : List (Option Char × Option Char)) : Prop :=
  cols.filterMap Prod.fst = xs ∧ cols.filterMap Prod.snd = ys ∧
    ∀ c ∈ cols, c ≠ ((none : Option Char), (none : Option Char))

/-- The minimum total alignment penalty, defined by structural recursion on
    the two sequences (consuming from the front).  This is the reference
    value the DP table is proved to compute. -/
def bestCost (gap_pen : Int) (pen : Char → Char → Int) :
    List Char → List Char → Int
  | [], ys => (ys.length : Int) * gap_pen
  | _ :: xs, [] => ((xs.length : Int) + 1) * gap_pen
  | a :: xs, b :: ys =>
    min (bestCost gap_pen pen xs ys + pen a b)
      (min (bestCost gap_pen pen xs (b :: ys) + gap_pen)
        (bestCost gap_pen pen (a :: xs) ys + gap_pen))
termination_by xs ys => xs.length + ys.length

/-! ## Helper lemmas -/

/-- `reconstruct_optimal_alignment` never yields the empty list: every
    successful outcome is a two-element list `[sx, sy]`. -/
theorem reconstruct_ne_empty (x y : List Char) (gap_pen : Int)
    (pen : Char → Char → Int) (dp : Nat → Nat → Int) :
    reconstruct_optimal_alignment x y gap_pen pen dp ≠ Except.ok [] := by
  unfold reconstruct_optimal_alignment
  rcases reconGo x y gap_pen pen dp (x.length + y.length) x.length y.length [] []
    with e | ⟨sx, sy, i, j⟩
  · simp
  · dsimp only
    split_ifs <;> simp

/-- The defining equation of an interior cell: the three-way minimum of the
    bottom-up recurrence, exactly as the inner loop assigns it. -/
theorem subproblems_succ_succ (x y : List Char) (gap_pen : Int)
    (pen : Char → Char → Int) (i j : Nat) :
    subproblems x y gap_pen pen (i + 1) (j + 1) =
      min (subproblems x y gap_pen pen i j + pen (x.getD i ' ') (y.getD j ' '))
        (min (subproblems x y gap_pen pen i (j + 1) + gap_pen)
          (subproblems x y gap_pen pen (i + 1) j + gap_pen)) := rfl

/-- The seeded boundary column: `subproblems[i][0] = i * gap_pen`. -/
theorem subproblems_zero_right (x y : List Char) (gap_pen : Int)
    (pen : Char → Char → Int) (i : Nat) :
    subproblems x y gap_pen pen i 0 = (i : Int) * gap_pen := by
  cases i with
  | zero => rfl
  | succ i =>
    show ((i : Int) + 1) * gap_pen = ((i + 1 : Nat) : Int) * gap_pen
    push_cast
    ring

/-- The seeded boundary row: `subproblems[0][j] = j * gap_pen`. -/
theorem subproblems_zero_left (x y : List Char) (gap_pen : Int)
    (pen : Char → Char → Int) (j : Nat) :
    subproblems x y gap_pen pen 0 j = (j : Int) * gap_pen := rfl

/-- Every cell of the table is non-negative when the gap penalty and all
    substitution penalties for pairs of X × Y are non-negative. -/
theorem subproblems_nonneg (x y : List Char) (gap_pen : Int)
    (pen : Char → Char → Int) (hg : 0 ≤ gap_pen)
    (hpen : ∀ a ∈ x, ∀ b ∈ y, 0 ≤ pen a b) :
    ∀ i, i ≤ x.length → ∀ j, j ≤ y.length →
      0 ≤ subproblems x y gap_pen pen i j := by
  intro i
  induction i with
  | zero =>
    intro _ j _
    rw [subproblems_zero_left]
    exact mul_nonneg (Int.natCast_nonneg j) hg
  | succ i ih =>
    intro hi j
    have hi' : i ≤ x.length := Nat.le_of_succ_le hi
    have hxm : x.getD i ' ' ∈ x := by
      rw [List.getD_eq_getElem x ' ' (Nat.lt_of_succ_le hi)]
      exact List.getElem_mem _
    induction j with
    | zero =>
      intro _
      rw [subproblems_zero_right]
      exact mul_nonneg (Int.natCast_nonneg (i + 1)) hg
    | succ j ihj =>
      intro hj
      have hj' : j ≤ y.length := Nat.le_of_succ_le hj
      have hym : y.getD j ' ' ∈ y := by
        rw [List.getD_eq_getElem y ' ' (Nat.lt_of_succ_le hj)]
        exact List.getElem_mem _
      rw [subproblems_succ_succ]
      refine le_min ?_ (le_min ?_ ?_)
      · exact add_nonneg (ih hi' j hj') (hpen _ hxm _ hym)
      · exact add_nonneg (ih hi' (j + 1) hj) hg
      · exact add_nonneg (ihj hj') hg

/-! ## Claims -/

/-- Claim C9: on the concrete scenario X = "AGGGCT", Y = "AGGCA",
gap penalty 2, substitution penalty 0 for identical symbols and 3 for any
distinct pair, the table value `table[m][n] = table[6][5]` computed by the
bottom-up recurrence equals 5.  The embedded computation is a pure function,
so the value is identical on every invocation. -/
theorem claim9_concrete_scenario :
    subproblems ['A', 'G', 'G', 'G', 'C', 'T'] ['A', 'G', 'G', 'C', 'A'] 2
      (fun a b => if a = b then 0 else 3) 6 5 = 5 := by
  rfl

/-- Claim C3 is FALSE of the code: on X = "A", Y = "A", gap penalty 2 and
penalty 0 for (A, A), the table gives `table[1][1] = 0 = table[0][0] +
pen(A, A)`, so backtracking takes the diagonal branch; that branch executes
`y -= 1` — subtracting an int from the string variable `y` instead of
decrementing the index `j` — which raises `TypeError`, so the step does not
complete. -/
theorem claim3_diagonal_type_error :
    sequence_alignment ['A'] ['A'] 2 [('A', [('A', 0)])] =
      Except.error PyErr.typeError := by
  rfl

/-- Claim C2 is FALSE of the code: on X = "AB", Y = "Z" with gap penalty 1
and penalties pen(A, Z) = pen(B, Z) = 100, backtracking takes the up-gap
branch twice and exits with j = 1 > 0; the post-loop padding prepends a gap
to Sx but never prepends the unconsumed character of Y to Sy, so the call
returns Sx = " AB" and Sy = "  ": the lengths differ (3 vs 2), stripping the
gap markers from Sy yields "" instead of "Z", and no per-position penalty sum
matching `table[m][n]` exists. -/
theorem claim2_code_drops_chars :
    sequence_alignment ['A', 'B'] ['Z'] 1 [('A', [('Z', 100)]), ('B', [('Z', 100)])] =
      Except.ok [[' ', 'A', 'B'], [' ', ' ']] := by
  rfl

/-- Claim C4 is FALSE of the code: on X = "Z", Y = "AB" with gap penalty 1
and penalties pen(Z, A) = pen(Z, B) = 100, the loop exits with j = 2 > 0;
the code prepends j gap markers to Sx (giving "  Z") but does not prepend the
remaining first j characters of Y to Sy, which stays " " instead of "AB ". -/
theorem claim4_tail_chars_missing :
    sequence_alignment ['Z'] ['A', 'B'] 1 [('Z', [('A', 100), ('B', 100)])] =
      Except.ok [[' ', ' ', 'Z'], [' ']] := by
  rfl

/-- Claim C8 is FALSE of the code: calling the operation with an empty first
sequence and a non-empty second sequence returns the silent empty result `[]`
(there is no distinguishable error outcome in the code for this case). -/
theorem claim8_counterexample :
    sequence_alignment [] ['A'] 2 [('A', [('A', 0)])] = Except.ok [] := by
  rfl

/-- Claim C8 (amended): calling the operation with an empty first sequence
and a non-empty second sequence yields the silently returned empty result
`[]` — the historical behavior the spec explicitly replaces — rather than a
distinguishable EmptyInput error outcome or a single-gap alignment. -/
theorem claim8_amended_silent_empty (y : List Char) (gap_pen : Int)
    (pen_map : List (Char × List (Char × Int))) (hy : y ≠ []) :
    sequence_alignment [] y gap_pen pen_map = Except.ok [] := by
  unfold sequence_alignment
  rw [if_pos (Or.inl rfl)]

/-- Witness for `claim8_amended_silent_empty` at Y = "B", gap penalty 3. -/
theorem claim8_witness :
    sequence_alignment [] ['B'] 3 [('B', [('B', 1)])] = Except.ok [] :=
  claim8_amended_silent_empty ['B'] 3 [('B', [('B', 1)])] (by decide)

/-- Claim C7: every input violating a precondition of the table builder —
empty X or Y, negative gap penalty, empty penalty map, or a penalty map
missing an entry for a pair of symbols of X × Y (all of which the bottom-up
recurrence encounters) — produces an empty or no-result outcome, never a
computed alignment; and in the missing-entry case specifically the call fails
with `KeyError` rather than substituting an implicit default penalty. -/
theorem claim7_precondition_rejection (x y : List Char) (gap_pen : Int)
    (pen_map : List (Char × List (Char × Int)))
    (h : x = [] ∨ y = [] ∨ gap_pen < 0 ∨ pen_map = [] ∨ penTotal x y pen_map = false) :
    (sequence_alignment x y gap_pen pen_map = Except.ok [] ∨
      sequence_alignment x y gap_pen pen_map = Except.error PyErr.keyError) ∧
    (x ≠ [] → y ≠ [] → ¬gap_pen < 0 → pen_map ≠ [] → penTotal x y pen_map = false →
      sequence_alignment x y gap_pen pen_map = Except.error PyErr.keyError) := by
  unfold sequence_alignment
  constructor
  · split_ifs with h1 h2 h3 h4
    · exact Or.inl rfl
    · exact Or.inl rfl
    · exact Or.inl rfl
    · exfalso
      rcases h with h | h | h | h | h
      · exact h1 (Or.inl h)
      · exact h1 (Or.inr h)
      · exact h2 h
      · exact h3 h
      · rw [h4] at h
        simp at h
    · exact Or.inr rfl
  · intro hx hy hg hpm ht
    rw [if_neg (by simp [hx, hy]), if_neg hg, if_neg hpm, if_neg (by simp [ht])]

/-- Witness for `claim7_precondition_rejection` at X = "A", Y = "B",
gap penalty 0, penalty map {A: {A: 0}} (missing the encountered pair
(A, B)). -/
theorem claim7_witness :
    (sequence_alignment ['A'] ['B'] 0 [('A', [('A', 0)])] = Except.ok [] ∨
      sequence_alignment ['A'] ['B'] 0 [('A', [('A', 0)])] =
        Except.error PyErr.keyError) ∧
    (['A'] ≠ ([] : List Char) → ['B'] ≠ ([] : List Char) → ¬(0 : Int) < 0 →
      [('A', [('A', 0)])] ≠ ([] : List (Char × List (Char × Int))) →
      penTotal ['A'] ['B'] [('A', [('A', 0)])] = false →
      sequence_alignment ['A'] ['B'] 0 [('A', [('A', 0)])] =
        Except.error PyErr.keyError) :=
  claim7_precondition_rejection ['A'] ['B'] 0 [('A', [('A', 0)])] (by decide)

/-- Claim C10 is FALSE of the code as stated: on X = "A", Y = "A",
gap penalty 0 and the negative penalty entry pen(A, A) = -5, validation
accepts the input and the table is computed with the negative value
(`table[1][1] = -5`), but the call raises `TypeError` in reconstruction (the
diagonal branch is taken, hitting the `y -= 1` slip) instead of returning a
result. -/
theorem claim10_counterexample :
    sequence_alignment ['A'] ['A'] 0 [('A', [('A', -5)])] =
      Except.error PyErr.typeError := by
  rfl

/-- Claim C10 (amended): the validation of the public operation covers only
emptiness of the sequences, negativity of the gap penalty, and emptiness of
the penalty map; for non-empty X and Y, non-negative gap penalty, and a
non-empty penalty map defining entries (including negative ones) for every
pair of X × Y, the call proceeds past validation into the table computation
and reconstruction with the looked-up (possibly negative) values — it never
returns the validation-rejection empty result, though it may raise inside
reconstruction instead of returning an alignment. -/
theorem claim10_not_rejected (x y : List Char) (gap_pen : Int)
    (pen_map : List (Char × List (Char × Int)))
    (hx : x ≠ []) (hy : y ≠ []) (hg : 0 ≤ gap_pen) (hpm : pen_map ≠ [])
    (htot : penTotal x y pen_map = true)
    (hneg : ∃ a ∈ x, ∃ b ∈ y, ∃ p, lookup2 pen_map a b = some p ∧ p < 0) :
    sequence_alignment x y gap_pen pen_map =
      reconstruct_optimal_alignment x y gap_pen (penOf pen_map)
        (subproblems x y gap_pen (penOf pen_map)) ∧
    sequence_alignment x y gap_pen pen_map ≠ Except.ok [] := by
  have heq : sequence_alignment x y gap_pen pen_map =
      reconstruct_optimal_alignment x y gap_pen (penOf pen_map)
        (subproblems x y gap_pen (penOf pen_map)) := by
    unfold sequence_alignment
    rw [if_neg (by simp [hx, hy]), if_neg (not_lt.mpr hg), if_neg hpm, if_pos htot]
  exact ⟨heq, heq ▸ reconstruct_ne_empty x y gap_pen (penOf pen_map)
    (subproblems x y gap_pen (penOf pen_map))⟩

/-- Witness for `claim10_not_rejected` at X = "A", Y = "A", gap penalty 0,
penalty map {A: {A: -5}}. -/
theorem claim10_witness :
    sequence_alignment ['A'] ['A'] 0 [('A', [('A', -5)])] =
      reconstruct_optimal_alignment ['A'] ['A'] 0 (penOf [('A', [('A', -5)])])
        (subproblems ['A'] ['A'] 0 (penOf [('A', [('A', -5)])])) ∧
    sequence_alignment ['A'] ['A'] 0 [('A', [('A', -5)])] ≠ Except.ok [] :=
  claim10_not_rejected ['A'] ['A'] 0 [('A', [('A', -5)])] (by decide) (by decide)
    (by decide) (by decide) (by decide)
    ⟨'A', by decide, 'A', by decide, -5, by decide, by decide⟩

/-- Claim C5: for every valid input (non-empty sequences, non-negative gap
penalty, non-negative substitution penalties on the encountered pairs), the
completed table satisfies `cell(i, 0) = i * gap_pen` for all `i ≤ m`,
`cell(0, j) = j * gap_pen` for all `j ≤ n`, every interior cell equals the
three-way minimum of its diagonal, up, and left candidates, and every cell
value is non-negative. -/
theorem claim5_table_invariants (x y : List Char) (gap_pen : Int)
    (pen : Char → Char → Int) (hx : x ≠ []) (hy : y ≠ []) (hg : 0 ≤ gap_pen)
    (hpen : ∀ a ∈ x, ∀ b ∈ y, 0 ≤ pen a b) :
    (∀ i, i ≤ x.length → subproblems x y gap_pen pen i 0 = (i : Int) * gap_pen) ∧
    (∀ j, j ≤ y.length → subproblems x y gap_pen pen 0 j = (j : Int) * gap_pen) ∧
    (∀ i j, i < x.length → j < y.length →
      subproblems x y gap_pen pen (i + 1) (j + 1) =
        min (subproblems x y gap_pen pen i j + pen (x.getD i ' ') (y.getD j ' '))
          (min (subproblems x y gap_pen pen i (j + 1) + gap_pen)
            (subproblems x y gap_pen pen (i + 1) j + gap_pen))) ∧
    (∀ i, i ≤ x.length → ∀ j, j ≤ y.length →
      0 ≤ subproblems x y gap_pen pen i j) :=
  ⟨fun i _ => subproblems_zero_right x y gap_pen pen i,
   fun j _ => subproblems_zero_left x y gap_pen pen j,
   fun i j _ _ => subproblems_succ_succ x y gap_pen pen i j,
   subproblems_nonneg x y gap_pen pen hg hpen⟩

/-- Witness for `claim5_table_invariants` at X = "A", Y = "B",
gap penalty 1, constant substitution penalty 5: cell (1, 1) is
non-negative. -/
theorem claim5_witness :
    0 ≤ subproblems ['A'] ['B'] 1 (fun _ _ => 5) 1 1 :=
  (claim5_table_invariants ['A'] ['B'] 1 (fun _ _ => 5) (by decide) (by decide)
    (by decide) (fun _ _ _ _ => by norm_num)).2.2.2 1 (by decide) 1 (by decide)

/-- Claim C6: at a backtracking position with i ≥ 1 and j ≥ 1 where two or
more of the three candidates equal `table[i][j]`, the fixed tie-break order
is applied: whenever the diagonal candidate matches — also when the up-gap
or left-gap candidate matches at the same time — the `if result == result1`
test fires first and the diagonal branch is entered (whose body then raises
the `TypeError` of the `y -= 1` slip); and when the diagonal candidate does
not match but the up-gap and left-gap candidates both do, the up-gap branch
is chosen over the left-gap branch. -/
theorem claim6_tie_break_order (x y : List Char) (gap_pen : Int)
    (pen : Char → Char → Int) (dp : Nat → Nat → Int) (fuel i j : Nat)
    (sx sy : List Char) :
    (dp (i + 1) (j + 1) = dp i j + pen (x.getD i ' ') (y.getD j ' ') →
      dp (i + 1) (j + 1) = dp i (j + 1) + gap_pen →
      btChoice (dp (i + 1) (j + 1)) (dp i j + pen (x.getD i ' ') (y.getD j ' '))
          (dp i (j + 1) + gap_pen) = BtCase.case1 ∧
      reconGo x y gap_pen pen dp (fuel + 1) (i + 1) (j + 1) sx sy =
        Except.error PyErr.typeError) ∧
    (dp (i + 1) (j + 1) = dp i j + pen (x.getD i ' ') (y.getD j ' ') →
      dp (i + 1) (j + 1) = dp (i + 1) j + gap_pen →
      btChoice (dp (i + 1) (j + 1)) (dp i j + pen (x.getD i ' ') (y.getD j ' '))
          (dp i (j + 1) + gap_pen) = BtCase.case1 ∧
      reconGo x y gap_pen pen dp (fuel + 1) (i + 1) (j + 1) sx sy =
        Except.error PyErr.typeError) ∧
    (dp (i + 1) (j + 1) ≠ dp i j + pen (x.getD i ' ') (y.getD j ' ') →
      dp (i + 1) (j + 1) = dp i (j + 1) + gap_pen →
      dp (i + 1) (j + 1) = dp (i + 1) j + gap_pen →
      btChoice (dp (i + 1) (j + 1)) (dp i j + pen (x.getD i ' ') (y.getD j ' '))
          (dp i (j + 1) + gap_pen) = BtCase.case2 ∧
      reconGo x y gap_pen pen dp (fuel + 1) (i + 1) (j + 1) sx sy =
        reconGo x y gap_pen pen dp fuel i (j + 1)
          (x.getD i ' ' :: sx) (' ' :: sy)) := by
  refine ⟨fun h1 _ => ?_, fun h1 _ => ?_, fun h1 h2 _ => ?_⟩
  · have hb : btChoice (dp (i + 1) (j + 1))
        (dp i j + pen (x.getD i ' ') (y.getD j ' '))
        (dp i (j + 1) + gap_pen) = BtCase.case1 := by
      unfold btChoice
      rw [if_pos h1]
    refine ⟨hb, ?_⟩
    simp only [reconGo]
    rw [hb]
  · have hb : btChoice (dp (i + 1) (j + 1))
        (dp i j + pen (x.getD i ' ') (y.getD j ' '))
        (dp i (j + 1) + gap_pen) = BtCase.case1 := by
      unfold btChoice
      rw [if_pos h1]
    refine ⟨hb, ?_⟩
    simp only [reconGo]
    rw [hb]
  · have hb : btChoice (dp (i + 1) (j + 1))
        (dp i j + pen (x.getD i ' ') (y.getD j ' '))
        (dp i (j + 1) + gap_pen) = BtCase.case2 := by
      unfold btChoice
      rw [if_neg h1, if_pos h2]
    refine ⟨hb, ?_⟩
    simp only [reconGo]
    rw [hb]

/-- Witness for `claim6_tie_break_order`: with the all-zero table and
penalties, every candidate ties, and the diagonal branch is chosen (raising
the modelled `TypeError`). -/
theorem claim6_witness :
    btChoice ((fun _ _ => (0 : Int)) 1 1)
        ((fun _ _ => (0 : Int)) 0 0 +
          (fun _ _ => (0 : Int)) (List.getD [] 0 ' ') (List.getD [] 0 ' '))
        ((fun _ _ => (0 : Int)) 0 1 + 0) = BtCase.case1 ∧
    reconGo [] [] 0 (fun _ _ => 0) (fun _ _ => 0) 1 1 1 [] [] =
      Except.error PyErr.typeError :=
  (claim6_tie_break_order [] [] 0 (fun _ _ => 0) (fun _ _ => 0) 0 0 0 [] []).1
    rfl rfl

/-! ## Optimality of the table (claim C1): machinery -/

/-- Equation of `bestCost` when the first sequence is exhausted. -/
theorem bestCost_nil_left (gap_pen : Int) (pen : Char → Char → Int)
    (ys : List Char) :
    bestCost gap_pen pen [] ys = (ys.length : Int) * gap_pen := by
  cases ys <;> simp [bestCost]

/-- Equation of `bestCost` when the second sequence is exhausted. -/
theorem bestCost_nil_right (gap_pen : Int) (pen : Char → Char → Int)
    (xs : List Char) :
    bestCost gap_pen pen xs [] = (xs.length : Int) * gap_pen := by
  cases xs with
  | nil => simp [bestCost]
  | cons a xs =>
    simp only [bestCost, List.length_cons]
    push_cast
    ring

/-- Equation of `bestCost` in the main case. -/
theorem bestCost_cons_cons (gap_pen : Int) (pen : Char → Char → Int)
    (a b : Char) (xs ys : List Char) :
    bestCost gap_pen pen (a :: xs) (b :: ys) =
      min (bestCost gap_pen pen xs ys + pen a b)
        (min (bestCost gap_pen pen xs (b :: ys) + gap_pen)
          (bestCost gap_pen pen (a :: xs) ys + gap_pen)) := by
  simp [bestCost]

/-- Consuming a character of the first sequence against a gap costs at most
    `gap_pen` more. -/
theorem bestCost_le_gap_left (gap_pen : Int) (pen : Char → Char → Int)
    (a : Char) (xs ys : List Char) :
    bestCost gap_pen pen (a :: xs) ys ≤ bestCost gap_pen pen xs ys + gap_pen := by
  cases ys with
  | nil =>
    rw [bestCost_nil_right, bestCost_nil_right]
    apply le_of_eq
    simp only [List.length_cons]
    push_cast
    ring
  | cons b ys =>
    rw [bestCost_cons_cons]
    exact le_trans (min_le_right _ _) (min_le_left _ _)

/-- Consuming a character of the second sequence against a gap costs at most
    `gap_pen` more. -/
theorem bestCost_le_gap_right (gap_pen : Int) (pen : Char → Char → Int)
    (b : Char) (xs ys : List Char) :
    bestCost gap_pen pen xs (b :: ys) ≤ bestCost gap_pen pen xs ys + gap_pen := by
  cases xs with
  | nil =>
    rw [bestCost_nil_left, bestCost_nil_left]
    apply le_of_eq
    simp only [List.length_cons]
    push_cast
    ring
  | cons a xs =>
    rw [bestCost_cons_cons]
    exact le_trans (min_le_right _ _) (min_le_right _ _)

/-- Consuming one character of each sequence costs at most the substitution
    penalty more. -/
theorem bestCost_le_sub (gap_pen : Int) (pen : Char → Char → Int)
    (a b : Char) (xs ys : List Char) :
    bestCost gap_pen pen (a :: xs) (b :: ys) ≤
      bestCost gap_pen pen xs ys + pen a b := by
  rw [bestCost_cons_cons]
  exact min_le_left _ _

/-- Cost of an alignment with one more column. -/
theorem alignCost_cons (gap_pen : Int) (pen : Char → Char → Int)
    (c : Option Char × Option Char) (cols : List (Option Char × Option Char)) :
    alignCost gap_pen pen (c :: cols) =
      colCost gap_pen pen c + alignCost gap_pen pen cols := by
  simp [alignCost]

/-- Prepending a substitution column to an alignment. -/
theorem IsAlignment_cons_both {xs ys : List Char}
    {cols : List (Option Char × Option Char)} (a b : Char)
    (h : IsAlignment xs ys cols) :
    IsAlignment (a :: xs) (b :: ys) ((some a, some b) :: cols) := by
  obtain ⟨h1, h2, h3⟩ := h
  refine ⟨?_, ?_, ?_⟩
  · simp [List.filterMap_cons, h1]
  · simp [List.filterMap_cons, h2]
  · intro c hc
    rcases List.mem_cons.mp hc with hc | hc
    · simp [hc]
    · exact h3 c hc

/-- Prepending a column that consumes a character of the first sequence
    against a gap. -/
theorem IsAlignment_cons_gap_left {xs ys : List Char}
    {cols : List (Option Char × Option Char)} (a : Char)
    (h : IsAlignment xs ys cols) :
    IsAlignment (a :: xs) ys ((some a, none) :: cols) := by
  obtain ⟨h1, h2, h3⟩ := h
  refine ⟨?_, ?_, ?_⟩
  · simp [List.filterMap_cons, h1]
  · simp [List.filterMap_cons, h2]
  · intro c hc
    rcases List.mem_cons.mp hc with hc | hc
    · simp [hc]
    · exact h3 c hc

/-- Prepending a column that consumes a character of the second sequence
    against a gap. -/
theorem IsAlignment_cons_gap_right {xs ys : List Char}
    {cols : List (Option Char × Option Char)} (b : Char)
    (h : IsAlignment xs ys cols) :
    IsAlignment xs (b :: ys) ((none, some b) :: cols) := by
  obtain ⟨h1, h2, h3⟩ := h
  refine ⟨?_, ?_, ?_⟩
  · simp [List.filterMap_cons, h1]
  · simp [List.filterMap_cons, h2]
  · intro c hc
    rcases List.mem_cons.mp hc with hc | hc
    · simp [hc]
    · exact h3 c hc

/-- Lower bound: `bestCost` is below the cost of every valid alignment. -/
theorem bestCost_le_alignCost (gap_pen : Int) (pen : Char → Char → Int) :
    ∀ cols xs ys, IsAlignment xs ys cols →
      bestCost gap_pen pen xs ys ≤ alignCost gap_pen pen cols := by
  intro cols
  induction cols with
  | nil =>
    intro xs ys h
    obtain ⟨h1, h2, _⟩ := h
    simp only [List.filterMap_nil] at h1 h2
    subst h1
    subst h2
    simp [alignCost, bestCost]
  | cons c cs ih =>
    intro xs ys h
    obtain ⟨h1, h2, h3⟩ := h
    have hc : c ≠ ((none : Option Char), (none : Option Char)) :=
      h3 c (List.mem_cons_self c cs)
    have h3' : ∀ c ∈ cs, c ≠ ((none : Option Char), (none : Option Char)) :=
      fun c hcm => h3 c (List.mem_cons_of_mem _ hcm)
    obtain ⟨oa, ob⟩ := c
    rw [alignCost_cons]
    cases oa with
    | some a =>
      cases ob with
      | some b =>
        simp only [List.filterMap_cons] at h1 h2
        subst h1
        subst h2
        calc bestCost gap_pen pen (a :: cs.filterMap Prod.fst)
              (b :: cs.filterMap Prod.snd) ≤
            bestCost gap_pen pen (cs.filterMap Prod.fst) (cs.filterMap Prod.snd) +
              pen a b := bestCost_le_sub _ _ _ _ _ _
          _ ≤ alignCost gap_pen pen cs + pen a b := by
            have := ih _ _ ⟨rfl, rfl, h3'⟩
            omega
          _ = colCost gap_pen pen (some a, some b) + alignCost gap_pen pen cs := by
            simp [colCost]
            omega
      | none =>
        simp only [List.filterMap_cons] at h1 h2
        subst h1
        subst h2
        calc bestCost gap_pen pen (a :: cs.filterMap Prod.fst)
              (cs.filterMap Prod.snd) ≤
            bestCost gap_pen pen (cs.filterMap Prod.fst) (cs.filterMap Prod.snd) +
              gap_pen := bestCost_le_gap_left _ _ _ _ _
          _ ≤ alignCost gap_pen pen cs + gap_pen := by
            have := ih _ _ ⟨rfl, rfl, h3'⟩
            omega
          _ = colCost gap_pen pen (some a, none) + alignCost gap_pen pen cs := by
            simp [colCost]
            omega
    | none =>
      cases ob with
      | some b =>
        simp only [List.filterMap_cons] at h1 h2
        subst h1
        subst h2
        calc bestCost gap_pen pen (cs.filterMap Prod.fst)
              (b :: cs.filterMap Prod.snd) ≤
            bestCost gap_pen pen (cs.filterMap Prod.fst) (cs.filterMap Prod.snd) +
              gap_pen := bestCost_le_gap_right _ _ _ _ _
          _ ≤ alignCost gap_pen pen cs + gap_pen := by
            have := ih _ _ ⟨rfl, rfl, h3'⟩
            omega
          _ = colCost gap_pen pen ((none : Option Char), some b) +
              alignCost gap_pen pen cs := by
            simp [colCost]
            omega
      | none => exact absurd rfl hc

/-- Achievability when the first sequence is exhausted: aligning `[]` with
    `ys` by all-gap columns costs exactly `ys.length * gap_pen`. -/
theorem exists_alignment_nil_left (gap_pen : Int) (pen : Char → Char → Int) :
    ∀ ys : List Char, ∃ cols, IsAlignment [] ys cols ∧
      alignCost gap_pen pen cols = (ys.length : Int) * gap_pen := by
  intro ys
  induction ys with
  | nil =>
    refine ⟨[], ⟨rfl, rfl, by simp⟩, by simp [alignCost]⟩
  | cons b ys ih =>
    obtain ⟨cols, hA, hC⟩ := ih
    refine ⟨((none : Option Char), some b) :: cols,
      IsAlignment_cons_gap_right b hA, ?_⟩
    rw [alignCost_cons, hC]
    simp only [colCost, List.length_cons]
    push_cast
    ring

/-- Achievability when the second sequence is exhausted. -/
theorem exists_alignment_nil_right (gap_pen : Int) (pen : Char → Char → Int) :
    ∀ xs : List Char, ∃ cols, IsAlignment xs [] cols ∧
      alignCost gap_pen pen cols = (xs.length : Int) * gap_pen := by
  intro xs
  induction xs with
  | nil =>
    refine ⟨[], ⟨rfl, rfl, by simp⟩, by simp [alignCost]⟩
  | cons a xs ih =>
    obtain ⟨cols, hA, hC⟩ := ih
    refine ⟨(some a, (none : Option Char)) :: cols,
      IsAlignment_cons_gap_left a hA, ?_⟩
    rw [alignCost_cons, hC]
    simp only [colCost, List.length_cons]
    push_cast
    ring

/-- Achievability: some valid alignment costs exactly `bestCost`. -/
theorem exists_alignment_bestCost (gap_pen : Int) (pen : Char → Char → Int) :
    ∀ N xs ys, xs.length + ys.length ≤ N →
      ∃ cols, IsAlignment xs ys cols ∧
        alignCost gap_pen pen cols = bestCost gap_pen pen xs ys := by
  intro N
  induction N with
  | zero =>
    intro xs ys h
    cases xs with
    | nil =>
      cases ys with
      | nil => exact ⟨[], ⟨rfl, rfl, by simp⟩, by simp [alignCost, bestCost]⟩
      | cons b ys =>
        simp only [List.length_cons] at h
        omega
    | cons a xs =>
      simp only [List.length_cons] at h
      omega
  | succ N ih =>
    intro xs ys h
    match xs, ys with
    | [], ys =>
      obtain ⟨cols, hA, hC⟩ := exists_alignment_nil_left gap_pen pen ys
      exact ⟨cols, hA, by rw [hC, bestCost_nil_left]⟩
    | a :: xs, [] =>
      obtain ⟨cols, hA, hC⟩ := exists_alignment_nil_right gap_pen pen (a :: xs)
      exact ⟨cols, hA, by rw [hC, bestCost_nil_right]⟩
    | a :: xs, b :: ys =>
      simp only [List.length_cons] at h
      have hsub : xs.length + ys.length ≤ N := by omega
      have hleft : xs.length + (b :: ys).length ≤ N := by
        simp only [List.length_cons]
        omega
      have hright : (a :: xs).length + ys.length ≤ N := by
        simp only [List.length_cons]
        omega
      obtain ⟨cols1, hA1, hC1⟩ := ih xs ys hsub
      obtain ⟨cols2, hA2, hC2⟩ := ih xs (b :: ys) hleft
      obtain ⟨cols3, hA3, hC3⟩ := ih (a :: xs) ys hright
      rw [bestCost_cons_cons]
      rcases min_choice (bestCost gap_pen pen xs ys + pen a b)
          (min (bestCost gap_pen pen xs (b :: ys) + gap_pen)
            (bestCost gap_pen pen (a :: xs) ys + gap_pen)) with hmin | hmin
      · refine ⟨(some a, some b) :: cols1, IsAlignment_cons_both a b hA1, ?_⟩
        rw [alignCost_cons, hC1, hmin]
        simp [colCost]
        omega
      · rw [hmin]
        rcases min_choice (bestCost gap_pen pen xs (b :: ys) + gap_pen)
            (bestCost gap_pen pen (a :: xs) ys + gap_pen) with hmin2 | hmin2
        · refine ⟨(some a, (none : Option Char)) :: cols2,
            IsAlignment_cons_gap_left a hA2, ?_⟩
          rw [alignCost_cons, hC2, hmin2]
          simp [colCost]
          omega
        · refine ⟨((none : Option Char), some b) :: cols3,
            IsAlignment_cons_gap_right b hA3, ?_⟩
          rw [alignCost_cons, hC3, hmin2]
          simp [colCost]
          omega

/-- Reversing an alignment aligns the reversed sequences. -/
theorem IsAlignment_reverse {xs ys : List Char}
    {cols : List (Option Char × Option Char)} (h : IsAlignment xs ys cols) :
    IsAlignment xs.reverse ys.reverse cols.reverse := by
  obtain ⟨h1, h2, h3⟩ := h
  refine ⟨?_, ?_, ?_⟩
  · rw [List.filterMap_reverse, h1]
  · rw [List.filterMap_reverse, h2]
  · intro c hc
    exact h3 c (List.mem_reverse.mp hc)

/-- Reversing an alignment does not change its cost. -/
theorem alignCost_reverse (gap_pen : Int) (pen : Char → Char → Int)
    (cols : List (Option Char × Option Char)) :
    alignCost gap_pen pen cols.reverse = alignCost gap_pen pen cols := by
  simp [alignCost, List.map_reverse, List.sum_reverse]

/-- Reversed prefix of length `n + 1`, peeled by one element. -/
theorem reverse_take_succ (l : List Char) (n : Nat) (h : n < l.length)
    (d : Char) :
    (l.take (n + 1)).reverse = l.getD n d :: (l.take n).reverse := by
  rw [List.take_succ, List.getElem?_eq_getElem h, List.reverse_append,
    List.getD_eq_getElem l d h]
  rfl

/-- The bridge between the table and the reference minimum: cell `(i, j)`
    holds the minimum alignment cost of the reversed prefixes of lengths `i`
    and `j` (the recurrence removes the last character of a prefix, which is
    the head of the reversed prefix). -/
theorem subproblems_eq_bestCost (x y : List Char) (gap_pen : Int)
    (pen : Char → Char → Int) :
    ∀ i, i ≤ x.length → ∀ j, j ≤ y.length →
      subproblems x y gap_pen pen i j =
        bestCost gap_pen pen ((x.take i).reverse) ((y.take j).reverse) := by
  intro i
  induction i with
  | zero =>
    intro _ j hj
    rw [subproblems_zero_left, List.take_zero, List.reverse_nil,
      bestCost_nil_left, List.length_reverse, List.length_take_of_le hj]
  | succ i ih =>
    intro hi j
    have hi' : i < x.length := Nat.lt_of_succ_le hi
    induction j with
    | zero =>
      intro _
      rw [subproblems_zero_right, List.take_zero, List.reverse_nil,
        bestCost_nil_right, List.length_reverse, List.length_take_of_le hi]
    | succ j ihj =>
      intro hj
      have hj' : j < y.length := Nat.lt_of_succ_le hj
      rw [subproblems_succ_succ,
        reverse_take_succ x i hi' ' ', reverse_take_succ y j hj' ' ',
        bestCost_cons_cons,
        ← reverse_take_succ x i hi' ' ', ← reverse_take_succ y j hj' ' ',
        ih (Nat.le_of_lt hi') j (Nat.le_of_lt hj'),
        ih (Nat.le_of_lt hi') (j + 1) hj,
        ihj (Nat.le_of_lt hj')]

/-- Claim C1: for every non-empty X and Y, non-negative gap penalty, and
penalty matrix total over the symbol pairs of X and Y with non-negative
entries, the value `table[m][n]` computed by the table builder is the least
element of the set of total penalties of all valid alignments of X and Y
(per-position cost: substitution penalty when both positions are non-gap,
gap penalty when either is a gap) — it is achieved by some alignment and is
a lower bound for all of them. -/
theorem claim1_table_min_penalty (x y : List Char) (gap_pen : Int)
    (pen : Char → Char → Int) (hx : x ≠ []) (hy : y ≠ []) (hg : 0 ≤ gap_pen)
    (hpen : ∀ a ∈ x, ∀ b ∈ y, 0 ≤ pen a b) :
    IsLeast {c : Int | ∃ cols, IsAlignment x y cols ∧
        alignCost gap_pen pen cols = c}
      (subproblems x y gap_pen pen x.length y.length) := by
  have hbridge : subproblems x y gap_pen pen x.length y.length =
      bestCost gap_pen pen x.reverse y.reverse := by
    have h := subproblems_eq_bestCost x y gap_pen pen x.length le_rfl
      y.length le_rfl
    rwa [List.take_length, List.take_length] at h
  constructor
  · obtain ⟨cols, hA, hC⟩ := exists_alignment_bestCost gap_pen pen
      (x.reverse.length + y.reverse.length) x.reverse y.reverse le_rfl
    refine ⟨cols.reverse, ?_, ?_⟩
    · have h := IsAlignment_reverse hA
      rwa [List.reverse_reverse, List.reverse_reverse] at h
    · rw [alignCost_reverse, hC, hbridge]
  · rintro c ⟨cols, hA, rfl⟩
    rw [hbridge]
    calc bestCost gap_pen pen x.reverse y.reverse ≤
        alignCost gap_pen pen cols.reverse :=
          bestCost_le_alignCost gap_pen pen cols.reverse x.reverse y.reverse
            (IsAlignment_reverse hA)
      _ = alignCost gap_pen pen cols := alignCost_reverse gap_pen pen cols

/-- Witness for `claim1_table_min_penalty` at X = "A", Y = "B",
gap penalty 1, constant substitution penalty 5. -/
theorem claim1_witness :
    IsLeast {c : Int | ∃ cols, IsAlignment ['A'] ['B'] cols ∧
        alignCost 1 (fun _ _ => 5) cols = c}
      (subproblems ['A'] ['B'] 1 (fun _ _ => 5) 1 1) :=
  claim1_table_min_penalty ['A'] ['B'] 1 (fun _ _ => 5) (by decide) (by decide)
    (by decide) (fun _ _ _ _ => by norm_num)

end SeqAlign
